import Mathlib

/-!
# kucoin-go-sdk: the account endpoints (`account.go`)

A shallow embedding of `account.go`: the six endpoint wrappers of `ApiService`
(`Accounts`, `Account`, `CreateAccount`, `AccountHistories`, `AccountHolds`,
`InnerTransfer`) and the three response models (`AccountModel`,
`AccountHistoryModel`, `AccountHoldModel`).

Conventions of the embedding.

* A Go `string` is a Lean `String`; `+` and `fmt.Sprintf` with `%s` are `++`.
* A non-nil Go `map[string]string` is a `StrMap`, a list of entries with pairwise
  distinct keys; a map argument that may be `nil` is an `Option StrMap`.
* `int64` arguments are `Int`; the wrappers only compare them with `0` and print them.
* `as.Call` is a parameter of every wrapper: a function from the request and the
  state of the outside world to a result and a new state.
-/

namespace Kucoin

/-! ## Go maps of strings -/

/-- A non-nil `map[string]string`, as its list of entries. -/
abbrev StrMap := List (String × String)

/-- The map literal `map[string]string{}`. -/
def StrMap.empty : StrMap := []

/-- The assignment `m[k] = v`: overwrites the entry of `k` when there is one. -/
def StrMap.assign : StrMap → String → String → StrMap
  | [], k, v => [(k, v)]
  | (k', v') :: rest, k, v =>
    if k' = k then (k, v) :: rest else (k', v') :: StrMap.assign rest k v

/-- The lookup `v, ok := m[k]`. -/
def StrMap.index : StrMap → String → Option String
  | [], _ => none
  | (k', v') :: rest, k => if k' = k then some v' else StrMap.index rest k

/-- The keys of a map. -/
def StrMap.keys (m : StrMap) : List String := m.map Prod.fst

/-- Entries of a map argument that may be `nil`: ranging over a nil map visits nothing. -/
def entriesOf : Option StrMap → List (String × String)
  | none => []
  | some m => m

/-- Reading `m[k]` from a map that may be `nil`: a nil map has no key. -/
def indexOf (m : Option StrMap) (k : String) : Option String :=
  StrMap.index (entriesOf m) k

/-! ## Requests and the core -/

/-- Constant `http.MethodGet` of `net/http`. -/
def MethodGet : String := "GET"

/-- Constant `http.MethodPost` of `net/http`. -/
def MethodPost : String := "POST"

/-- Modelled from the spec: the `Request` type is declared outside `account.go`; the spec's
Request Descriptor is the HTTP method, the URL path and the parameter set. `Params` is
`none` for Go's `nil` map. -/
structure Request where
  Method : String
  Path : String
  Params : Option StrMap
  deriving DecidableEq, Repr

/-- Modelled from the spec: `NewRequest` is defined outside `account.go`; it builds the
Request Descriptor from the method, the path and the parameter set it is handed. -/
def NewRequest (method path : String) (params : Option StrMap) : Request :=
  { Method := method, Path := path, Params := params }

/-- The `(*ApiResponse, error)` pair returned by `Call`; either component may be `nil`. -/
abbrev CallResult (R E : Type) := Option R × Option E

/-- The fields of `PaginationParam` that the tests set (`CurrentPage`, `PageSize`); a value of
this type is a non-nil `*PaginationParam`. -/
structure PaginationParam where
  CurrentPage : Int
  PageSize : Int
  deriving DecidableEq, Repr

/-- Modelled from the spec: `IntToString` is defined outside `account.go`; it renders an
`int64` in decimal. -/
def IntToString (i : Int) : String := toString i

variable {σ R E : Type}

/-! ## The wrappers of `account.go` -/

/-- The method `ApiService.Accounts` (account.go, lines 24-34). -/
def Accounts (Call : Request → σ → CallResult R E × σ) (currency typo : String) :
    σ → CallResult R E × σ :=
  let p : StrMap := StrMap.empty
  let p := if currency ≠ "" then StrMap.assign p "currency" currency else p
  let p := if typo ≠ "" then StrMap.assign p "type" typo else p
  let req := NewRequest MethodGet "/api/v1/accounts" (some p)
  Call req

/-- The method `ApiService.Account` (account.go, lines 37-40): the parameter map is `nil`. -/
def Account (Call : Request → σ → CallResult R E × σ) (accountId : String) :
    σ → CallResult R E × σ :=
  let req := NewRequest MethodGet ("/api/v1/accounts/" ++ accountId) none
  Call req

/-- The method `ApiService.CreateAccount` (account.go, lines 43-46). -/
def CreateAccount (Call : Request → σ → CallResult R E × σ) (typo currency : String) :
    σ → CallResult R E × σ :=
  let req := NewRequest MethodPost "/api/v1/accounts"
    (some (StrMap.assign (StrMap.assign StrMap.empty "currency" currency) "type" typo))
  Call req

/-- The method `ApiService.AccountHistories` (account.go, lines 66-77). `ReadParam` is the method
`PaginationParam.ReadParam`, defined outside `account.go`: it receives the map and returns
the map as it has left it. -/
def AccountHistories (ReadParam : PaginationParam → StrMap → StrMap)
    (Call : Request → σ → CallResult R E × σ)
    (accountId : String) (startAt endAt : Int) (pagination : PaginationParam) :
    σ → CallResult R E × σ :=
  let p : StrMap := StrMap.empty
  let p := if startAt > 0 then StrMap.assign p "startAt" (IntToString startAt) else p
  let p := if endAt > 0 then StrMap.assign p "endAt" (IntToString endAt) else p
  let p := ReadParam pagination p
  let req := NewRequest MethodGet ("/api/v1/accounts/" ++ accountId ++ "/ledgers") (some p)
  Call req

/-- The method `ApiService.AccountHolds` (account.go, lines 100-105). -/
def AccountHolds (ReadParam : PaginationParam → StrMap → StrMap)
    (Call : Request → σ → CallResult R E × σ)
    (accountId : String) (pagination : PaginationParam) :
    σ → CallResult R E × σ :=
  let p : StrMap := StrMap.empty
  let p := ReadParam pagination p
  let req := NewRequest MethodGet ("/api/v1/accounts/" ++ accountId ++ "/holds") (some p)
  Call req

/-- The method `ApiService.InnerTransfer` (account.go, lines 115-124). -/
def InnerTransfer (Call : Request → σ → CallResult R E × σ)
    (clientOid payAccountId recAccountId amount : String) :
    σ → CallResult R E × σ :=
  let p : StrMap :=
    StrMap.assign (StrMap.assign (StrMap.assign (StrMap.assign StrMap.empty
      "clientOid" clientOid) "payAccountId" payAccountId) "recAccountId" recAccountId)
      "amount" amount
  let req := NewRequest MethodPost "/api/v1/accounts/inner-transfer" (some p)
  Call req

/-! ## Observing what a wrapper hands to the core -/

/-- A core that behaves as `Call` does and also appends every request it receives to a log. -/
def traced (Call : Request → σ → CallResult R E × σ) :
    Request → σ × List Request → CallResult R E × (σ × List Request) :=
  fun req st => ((Call req st.1).1, ((Call req st.1).2, st.2 ++ [req]))

/-- A core that answers `(nil, nil)` and logs the request. -/
def logOnly : Request → List Request → CallResult Unit Unit × List Request :=
  fun req log => ((none, none), log ++ [req])

/-- The requests a wrapper hands to the core, in order, starting from an empty log. -/
def sentBy
    (w : (Request → List Request → CallResult Unit Unit × List Request) →
      List Request → CallResult Unit Unit × List Request) : List Request :=
  (w logOnly []).2

/-- Modelled from the spec: an instance of `PaginationParam.ReadParam` (defined outside
`account.go`), which writes the page number and the page size into the map. -/
def pageParams (pg : PaginationParam) (m : StrMap) : StrMap :=
  StrMap.assign (StrMap.assign m "currentPage" (IntToString pg.CurrentPage))
    "pageSize" (IntToString pg.PageSize)

/-! ## JSON values

The response models of `account.go` are filled in by `encoding/json` (the file imports it and
declares the members' names in `json:"..."` tags). JSON texts are taken as parsed: a string
is the sequence of its characters, a number keeps its literal. -/

/-- A JSON value; a number carries its literal (`10.5`, `1e-8`), an object its members in
the order of the text. -/
inductive Json where
  | null
  | bool (b : Bool)
  | num (lit : String)
  | str (s : String)
  | arr (elems : List Json)
  | obj (members : List (String × Json))

/-- The members of an object; any other value has none. -/
def Json.members : Json → List (String × Json)
  | .obj kvs => kvs
  | _ => []

/-- The first member of that name, when there is one. -/
def Json.get? (j : Json) (name : String) : Option Json :=
  j.members.lookup name

/-- The word `encoding/json` uses for a value in an `UnmarshalTypeError`. -/
def Json.describe : Json → String
  | .null => "null"
  | .bool _ => "bool"
  | .num _ => "number"
  | .str _ => "string"
  | .arr _ => "array"
  | .obj _ => "object"

/-- The types of the fields of the models of `account.go`. -/
inductive GoKind where
  | string
  | int64
  | rawMessage
  deriving DecidableEq, Repr

/-- A value of one of these types; a `json.RawMessage` that was never written is `nil`. -/
inductive GoVal where
  | string (s : String)
  | int64 (i : Int)
  | rawMessage (raw : Option Json)

/-- The name of a kind, as an error reports it. -/
def GoKind.name : GoKind → String
  | .string => "string"
  | .int64 => "int64"
  | .rawMessage => "json.RawMessage"

/-- The zero value of a kind. -/
def GoKind.zero : GoKind → GoVal
  | .string => .string ""
  | .int64 => .int64 0
  | .rawMessage => .rawMessage none

/-- A field of a struct: its Go name, the name in its `json` tag, its type. -/
structure StructField where
  Name : String
  Tag : String
  Kind : GoKind
  deriving DecidableEq, Repr

/-- A struct type: its name and its fields in the order of the declaration. A value of the
type is the list of the values of its fields, in the same order. -/
structure StructType where
  Name : String
  Fields : List StructField
  deriving DecidableEq, Repr

/-! ## The models of `account.go` -/

/-- The struct `AccountModel` (account.go, lines 10-17); the field `Type` is written `Typ`. -/
structure AccountModel where
  Id : String
  Currency : String
  Typ : String
  Balance : String
  Available : String
  Holds : String
  deriving DecidableEq, Repr

/-- The declaration of `AccountModel`, with its `json` tags. -/
def AccountModel.type : StructType :=
  { Name := "AccountModel",
    Fields := [⟨"Id", "id", .string⟩, ⟨"Currency", "currency", .string⟩,
      ⟨"Type", "type", .string⟩, ⟨"Balance", "balance", .string⟩,
      ⟨"Available", "available", .string⟩, ⟨"Holds", "holds", .string⟩] }

/-- An `AccountModel` as the list of its field values. -/
def AccountModel.vals (a : AccountModel) : List GoVal :=
  [.string a.Id, .string a.Currency, .string a.Typ, .string a.Balance,
   .string a.Available, .string a.Holds]

/-- A named type of slices of pointers to a struct: its name and the struct. -/
structure SliceType where
  Name : String
  Elem : StructType
  deriving DecidableEq, Repr

/-- The declaration of `AccountsModel` (account.go, line 20): `[]*AccountModel`. -/
def AccountsModel.type : SliceType :=
  { Name := "AccountsModel", Elem := AccountModel.type }

/-- The declaration of `AccountHistoryModel` (account.go, lines 49-58), with its `json` tags. -/
def AccountHistoryModel.type : StructType :=
  { Name := "AccountHistoryModel",
    Fields := [⟨"Currency", "currency", .string⟩, ⟨"Amount", "amount", .string⟩,
      ⟨"Fee", "fee", .string⟩, ⟨"Balance", "balance", .string⟩,
      ⟨"BizType", "bizType", .string⟩, ⟨"Direction", "direction", .string⟩,
      ⟨"CreatedAt", "createdAt", .int64⟩, ⟨"Context", "context", .rawMessage⟩] }

/-- The declaration of `AccountHoldModel` (account.go, lines 83-90), with its `json` tags. -/
def AccountHoldModel.type : StructType :=
  { Name := "AccountHoldModel",
    Fields := [⟨"Currency", "currency", .string⟩, ⟨"HoldAmount", "holdAmount", .string⟩,
      ⟨"BizType", "bizType", .string⟩, ⟨"OrderId", "orderId", .string⟩,
      ⟨"CreatedAt", "createdAt", .int64⟩, ⟨"UpdatedAt", "updatedAt", .int64⟩] }

/-- The balance, amount and fee fields of the three models, each as (model, json name). -/
def decimalFields : List (StructType × String) :=
  [(AccountModel.type, "balance"), (AccountModel.type, "available"),
   (AccountModel.type, "holds"),
   (AccountHistoryModel.type, "amount"), (AccountHistoryModel.type, "fee"),
   (AccountHistoryModel.type, "balance"),
   (AccountHoldModel.type, "holdAmount")]

/-! ## Decoding and encoding -/

/-- The error `json.UnmarshalTypeError`: the JSON value `Value` does not fit the Go type `GoType`. -/
structure UnmarshalTypeError where
  Value : String
  GoType : String
  deriving DecidableEq, Repr

/-- The value of a decimal digit. -/
def digitValue (c : Char) : Option Nat :=
  if '0' ≤ c ∧ c ≤ '9' then some (c.toNat - '0'.toNat) else none

/-- The number written by a sequence of decimal digits, continuing from `acc`. -/
def parseDigits (acc : Nat) : List Char → Option Nat
  | [] => some acc
  | c :: cs =>
    match digitValue c with
    | none => none
    | some d => parseDigits (acc * 10 + d) cs

/-- Modelled from the spec: `strconv.ParseInt(lit, 10, 64)`, by which the decoder reads a
number into an `int64` field: an optional sign and decimal digits, within the 64-bit range. -/
def parseInt64 (lit : String) : Option Int :=
  match lit.data with
  | [] => none
  | c :: cs =>
    if c = '-' then
      if cs = [] then none
      else (parseDigits 0 cs).bind fun n => if n ≤ 2 ^ 63 then some (-(n : Int)) else none
    else if c = '+' then
      if cs = [] then none
      else (parseDigits 0 cs).bind fun n => if n < 2 ^ 63 then some (n : Int) else none
    else (parseDigits 0 (c :: cs)).bind fun n => if n < 2 ^ 63 then some (n : Int) else none

/-- Case folding of one character, as far as it decides a match with a tag made of ASCII
letters: a lower-case ASCII letter folds to its capital, the Kelvin sign to `K`, the long s
to `S`; any other character is left alone. -/
def foldRune (c : Char) : Char :=
  if 'a' ≤ c ∧ c ≤ 'z' then Char.ofNat (c.toNat - 32)
  else if c = Char.ofNat 0x212A then 'K'
  else if c = Char.ofNat 0x017F then 'S'
  else c

/-- Case folding of a name. -/
def foldName (s : String) : List Char := s.data.map foldRune

/-- The index of the first field that satisfies `p`. -/
def fieldIndex (p : StructField → Bool) : List StructField → Option Nat
  | [] => none
  | f :: fs => if p f then some 0 else (fieldIndex p fs).map (· + 1)

/-- Modelled from the spec: the field that `encoding/json` binds a member name to: the field
whose tag is the name, else the first field whose tag equals the name up to case. -/
def findField (T : StructType) (key : String) : Option Nat :=
  match fieldIndex (fun f => f.Tag == key) T.Fields with
  | some i => some i
  | none => fieldIndex (fun f => foldName f.Tag == foldName key) T.Fields

/-- Modelled from the spec: storing one JSON value into a field of the given kind that holds
`cur`. `null` leaves a string or an integer as it is; a `json.RawMessage` takes any value;
a string field takes a JSON string, an `int64` field a number that `parseInt64` reads; any
other pair is an `UnmarshalTypeError`. -/
def store (kind : GoKind) (cur : GoVal) (v : Json) : Except UnmarshalTypeError GoVal :=
  match kind, v with
  | .rawMessage, v => .ok (.rawMessage (some v))
  | .string, .null => .ok cur
  | .int64, .null => .ok cur
  | .string, .str s => .ok (.string s)
  | .int64, .num lit =>
    match parseInt64 lit with
    | some i => .ok (.int64 i)
    | none => .error { Value := "number " ++ lit, GoType := GoKind.int64.name }
  | k, v => .error { Value := v.describe, GoType := k.name }

/-- One member of an object: a member bound to no field is skipped; a stored value replaces
the field's; of the errors the first is kept and decoding goes on. -/
def objectStep (T : StructType) (st : List GoVal × Option UnmarshalTypeError)
    (kv : String × Json) : List GoVal × Option UnmarshalTypeError :=
  match findField T kv.1 with
  | none => st
  | some i =>
    match T.Fields[i]?, st.1[i]? with
    | some f, some cur =>
      match store f.Kind cur kv.2 with
      | .ok v => (st.1.set i v, st.2)
      | .error e => (st.1, match st.2 with | some e0 => some e0 | none => some e)
    | _, _ => st

/-- The members of an object, decoded in order into the zero value of the struct. -/
def decodeMembers (T : StructType) (kvs : List (String × Json)) :
    List GoVal × Option UnmarshalTypeError :=
  kvs.foldl (objectStep T) (T.Fields.map (fun f => f.Kind.zero), none)

/-- Modelled from the spec: the Envelope Decoder unmarshalling `data` into a fresh struct
(`ApiResponse.ReadData`, outside `account.go`, by way of `json.Unmarshal`): an object is
decoded member by member, `null` leaves the zero value, any other value is a type error. -/
def decodeStruct (T : StructType) : Json → Except UnmarshalTypeError (List GoVal)
  | .obj kvs =>
    match (decodeMembers T kvs).2 with
    | none => .ok (decodeMembers T kvs).1
    | some e => .error e
  | .null => .ok (T.Fields.map (fun f => f.Kind.zero))
  | v => .error { Value := v.describe, GoType := T.Name }

/-- An element of a slice of pointers: `null` is the nil pointer, any other value is decoded
into a new struct. -/
def decodeElem (T : StructType) : Json → Except UnmarshalTypeError (Option (List GoVal))
  | .null => .ok none
  | v =>
    match decodeStruct T v with
    | .ok vals => .ok (some vals)
    | .error e => .error e

/-- The elements of an array, decoded in order; the first error is the result. -/
def decodeElems (T : StructType) :
    List Json → Except UnmarshalTypeError (List (Option (List GoVal)))
  | [] => .ok []
  | x :: xs =>
    match decodeElem T x with
    | .error e => .error e
    | .ok r =>
      match decodeElems T xs with
      | .error e => .error e
      | .ok rs => .ok (r :: rs)

/-- Modelled from the spec: the Envelope Decoder unmarshalling `data` into a slice of
pointers to structs, such as `AccountsModel` (account.go, line 20): an array is decoded
element by element, `null` gives the nil slice, any other value is a type error that names
the declared slice type. -/
def decodeSlice (S : SliceType) : Json → Except UnmarshalTypeError (List (Option (List GoVal)))
  | .arr xs => decodeElems S.Elem xs
  | .null => .ok []
  | v => .error { Value := v.describe, GoType := S.Name }

/-- A field value as `json.Marshal` writes it: a string as a JSON string, an integer as a
decimal number, a nil `json.RawMessage` as `null`, any other as the value it holds. -/
def GoVal.encode : GoVal → Json
  | .string s => .str s
  | .int64 i => .num (toString i)
  | .rawMessage none => .null
  | .rawMessage (some j) => j

/-- Modelled from the spec: `json.Marshal` of a struct: one member for each field, named by
the tag, in the order of the declaration. -/
def encodeStruct (T : StructType) (vals : List GoVal) : Json :=
  .obj (List.zipWith (fun f v => (f.Tag, v.encode)) T.Fields vals)

/-! ## Shapes -/

/-- The members of an `AccountModel` on the wire, all of them JSON strings. -/
def AccountModel.members (a : AccountModel) : List (String × Json) :=
  [("id", .str a.Id), ("currency", .str a.Currency), ("type", .str a.Typ),
   ("balance", .str a.Balance), ("available", .str a.Available), ("holds", .str a.Holds)]

/-- A JSON value fits a kind: a string field takes a string, an `int64` field an integer
literal in range, a raw message anything; `null` fits every kind. -/
def fits : GoKind → Json → Bool
  | .rawMessage, _ => true
  | _, .null => true
  | .string, .str _ => true
  | .int64, .num lit => (parseInt64 lit).isSome
  | _, _ => false

/-- A member is well-shaped for a struct: it is bound to no field, or fits its field. -/
def memberFits (T : StructType) (kv : String × Json) : Bool :=
  match findField T kv.1 with
  | none => true
  | some i =>
    match T.Fields[i]? with
    | none => true
    | some f => fits f.Kind kv.2

/-- The fields the members are bound to, in the order of the members. -/
def boundFields (T : StructType) (kvs : List (String × Json)) : List Nat :=
  kvs.filterMap (fun kv => findField T kv.1)

/-- An object matches the shape of a struct: no two members are bound to the same field, and
every member fits the field it is bound to. -/
def Shaped (T : StructType) (kvs : List (String × Json)) : Prop :=
  (boundFields T kvs).Nodup ∧ ∀ kv ∈ kvs, memberFits T kv = true

/-! ## Lemmas on strings and maps -/

theorem String.data_append_eq (a b : String) : (a ++ b).data = a.data ++ b.data := by
  cases a; cases b; rfl

theorem String.eq_of_data_eq {a b : String} (h : a.data = b.data) : a = b := by
  cases a; cases b; simp_all

theorem String.append_left_cancel {p a b : String} (h : p ++ a = p ++ b) : a = b := by
  apply String.eq_of_data_eq
  have h' := congrArg String.data h
  simpa [String.data_append_eq] using h'

theorem String.append_right_cancel {a b q : String} (h : a ++ q = b ++ q) : a = b := by
  apply String.eq_of_data_eq
  have h' := congrArg String.data h
  simpa [String.data_append_eq] using h'

theorem StrMap.index_assign (m : StrMap) (k v k' : String) :
    StrMap.index (StrMap.assign m k v) k' = if k = k' then some v else StrMap.index m k' := by
  induction m with
  | nil => simp [StrMap.assign, StrMap.index]
  | cons e rest ih =>
    obtain ⟨k0, v0⟩ := e
    by_cases h0 : k0 = k
    · subst h0
      by_cases h1 : k0 = k' <;> simp [StrMap.assign, StrMap.index, h1]
    · by_cases h1 : k0 = k'
      · subst h1
        have : ¬ k = k0 := fun e => h0 e.symm
        simp [StrMap.assign, StrMap.index, h0, this]
      · simp [StrMap.assign, StrMap.index, h0, h1, ih]

theorem pageParams_keeps (pg : PaginationParam) (m : StrMap) (k : String)
    (hk : k = "startAt" ∨ k = "endAt") :
    StrMap.index (pageParams pg m) k = StrMap.index m k := by
  rcases hk with rfl | rfl <;> simp [pageParams, StrMap.index_assign]

/-! ## Lemmas on the decoder -/

theorem fieldIndex_some {p : StructField → Bool} {fs : List StructField} {i : Nat}
    (h : fieldIndex p fs = some i) : ∃ f, fs[i]? = some f ∧ p f = true := by
  induction fs generalizing i with
  | nil => simp [fieldIndex] at h
  | cons f fs ih =>
    unfold fieldIndex at h
    by_cases hp : p f = true
    · simp [hp] at h
      subst h
      exact ⟨f, by simp, hp⟩
    · simp [hp] at h
      obtain ⟨j, hj, rfl⟩ := h
      obtain ⟨g, hg, hpg⟩ := ih hj
      exact ⟨g, by simpa using hg, hpg⟩

theorem findField_of_tag {T : StructType} {key : String} {i : Nat}
    (h : fieldIndex (fun f => f.Tag == key) T.Fields = some i) : findField T key = some i := by
  simp [findField, h]

theorem findField_some {T : StructType} {key : String} {i : Nat}
    (h : findField T key = some i) : ∃ f, T.Fields[i]? = some f := by
  unfold findField at h
  split at h
  · next j hj =>
    cases h
    obtain ⟨f, hf, _⟩ := fieldIndex_some hj
    exact ⟨f, hf⟩
  · obtain ⟨f, hf, _⟩ := fieldIndex_some h
    exact ⟨f, hf⟩

theorem store_ok_iff_fits (kind : GoKind) (cur : GoVal) (v : Json) :
    (∃ w, store kind cur v = .ok w) ↔ fits kind v = true := by
  cases kind <;> cases v <;> simp [store, fits]
  next lit =>
    cases h : parseInt64 lit <;> simp

theorem store_string (cur : GoVal) (v : Json) :
    (v = .null ∧ store .string cur v = .ok cur) ∨
    (∃ s, v = .str s ∧ store .string cur v = .ok (.string s)) ∨
    ((∀ s, v ≠ .str s) ∧ v ≠ .null ∧ ∃ e, store .string cur v = .error e) := by
  cases v <;> simp [store]

theorem decodeMembers_snoc (T : StructType) (kvs : List (String × Json)) (kv : String × Json) :
    decodeMembers T (kvs ++ [kv]) = objectStep T (decodeMembers T kvs) kv := by
  simp [decodeMembers, List.foldl_append]

theorem objectStep_length (T : StructType) (st : List GoVal × Option UnmarshalTypeError)
    (kv : String × Json) : (objectStep T st kv).1.length = st.1.length := by
  unfold objectStep
  split
  · rfl
  · split
    · split <;> simp
    · rfl

theorem decodeMembers_length (T : StructType) (kvs : List (String × Json)) :
    (decodeMembers T kvs).1.length = T.Fields.length := by
  induction kvs using List.reverseRecOn with
  | nil => simp [decodeMembers]
  | append_singleton kvs kv ih => rw [decodeMembers_snoc, objectStep_length, ih]

theorem objectStep_frame (T : StructType) (st : List GoVal × Option UnmarshalTypeError)
    (kv : String × Json) (i : Nat) (h : findField T kv.1 ≠ some i) :
    (objectStep T st kv).1[i]? = st.1[i]? := by
  unfold objectStep
  split
  · rfl
  · next j hj =>
    have hji : j ≠ i := fun e => h (by rw [hj, e])
    split
    · split
      · simp [List.getElem?_set_ne hji]
      · rfl
    · rfl

theorem objectStep_error (T : StructType) (st : List GoVal × Option UnmarshalTypeError)
    (kv : String × Json) (hlen : st.1.length = T.Fields.length) :
    (objectStep T st kv).2 = none ↔ st.2 = none ∧ memberFits T kv = true := by
  unfold objectStep memberFits
  split
  · simp
  · next i hi =>
    obtain ⟨f, hf⟩ := findField_some hi
    have hlt : i < st.1.length := by
      rw [hlen]; exact (List.getElem?_eq_some.mp hf).1
    have hcur : st.1[i]? = some st.1[i] := List.getElem?_eq_getElem hlt
    rw [hf, hcur]
    simp only []
    have hfit := store_ok_iff_fits f.Kind st.1[i] kv.2
    cases hst : store f.Kind st.1[i] kv.2 with
    | ok w =>
      have : fits f.Kind kv.2 = true := hfit.mp ⟨w, hst⟩
      simp [this]
    | error e =>
      have : ¬ fits f.Kind kv.2 = true := fun hh => by
        obtain ⟨w, hw⟩ := hfit.mpr hh
        rw [hst] at hw; cases hw
      cases h2 : st.2 <;> simp [this]

theorem decodeMembers_ok_iff (T : StructType) (kvs : List (String × Json)) :
    (decodeMembers T kvs).2 = none ↔ ∀ kv ∈ kvs, memberFits T kv = true := by
  induction kvs using List.reverseRecOn with
  | nil => simp [decodeMembers]
  | append_singleton kvs kv ih =>
    rw [decodeMembers_snoc, objectStep_error _ _ _ (decodeMembers_length T kvs), ih]
    constructor
    · rintro ⟨h1, h2⟩ x hx
      rcases List.mem_append.mp hx with h | h
      · exact h1 x h
      · simp at h; subst h; exact h2
    · intro h
      exact ⟨fun x hx => h x (List.mem_append.mpr (Or.inl hx)),
        h kv (List.mem_append.mpr (Or.inr (by simp)))⟩

theorem objectStep_bound (T : StructType) (st : List GoVal × Option UnmarshalTypeError)
    (kv : String × Json) (i : Nat) (f : StructField) (cur : GoVal)
    (hb : findField T kv.1 = some i) (hf : T.Fields[i]? = some f) (hc : st.1[i]? = some cur) :
    objectStep T st kv =
      match store f.Kind cur kv.2 with
      | .ok v => (st.1.set i v, st.2)
      | .error e => (st.1, match st.2 with | some e0 => some e0 | none => some e) := by
  simp [objectStep, hb, hf, hc]

theorem decodeMembers_current (T : StructType) (kvs : List (String × Json)) (i : Nat)
    (f : StructField) (hf : T.Fields[i]? = some f) :
    ∃ cur, (decodeMembers T kvs).1[i]? = some cur := by
  have hlt : i < (decodeMembers T kvs).1.length := by
    rw [decodeMembers_length]; exact (List.getElem?_eq_some.mp hf).1
  exact ⟨_, List.getElem?_eq_getElem hlt⟩

/-- A string field holds either the string of a member bound to it, or the empty string
when no member bound to it is a string. -/
theorem decodeMembers_string_origin (T : StructType) (kvs : List (String × Json)) (i : Nat)
    (f : StructField) (hf : T.Fields[i]? = some f) (hk : f.Kind = .string) :
    (∃ k s, (k, Json.str s) ∈ kvs ∧ findField T k = some i ∧
      (decodeMembers T kvs).1[i]? = some (.string s)) ∨
    ((decodeMembers T kvs).1[i]? = some (.string "") ∧
      ∀ kv ∈ kvs, findField T kv.1 = some i → ∀ s, kv.2 ≠ .str s) := by
  induction kvs using List.reverseRecOn with
  | nil =>
    right
    refine ⟨?_, by simp⟩
    simp [decodeMembers, hf, hk, GoKind.zero]
  | append_singleton kvs kv ih =>
    rw [decodeMembers_snoc]
    have keep : (objectStep T (decodeMembers T kvs) kv).1[i]? = (decodeMembers T kvs).1[i]? →
        (∀ s, kv.2 ≠ .str s) ∨ findField T kv.1 ≠ some i →
        (∃ k s, (k, Json.str s) ∈ kvs ++ [kv] ∧ findField T k = some i ∧
          (objectStep T (decodeMembers T kvs) kv).1[i]? = some (.string s)) ∨
        ((objectStep T (decodeMembers T kvs) kv).1[i]? = some (.string "") ∧
          ∀ x ∈ kvs ++ [kv], findField T x.1 = some i → ∀ s, x.2 ≠ .str s) := by
      intro he hne
      rw [he]
      rcases ih with ⟨k, s, hm, hb, hv⟩ | ⟨hv, hall⟩
      · exact Or.inl ⟨k, s, List.mem_append.mpr (Or.inl hm), hb, hv⟩
      · refine Or.inr ⟨hv, fun x hx hbx s => ?_⟩
        rcases List.mem_append.mp hx with h | h
        · exact hall x h hbx s
        · simp at h; subst h
          rcases hne with h1 | h1
          · exact h1 s
          · exact absurd hbx h1
    by_cases hb : findField T kv.1 = some i
    · obtain ⟨cur, hc⟩ := decodeMembers_current T kvs i f hf
      have hlt : i < (decodeMembers T kvs).1.length := (List.getElem?_eq_some.mp hc).1
      have hstep := objectStep_bound T (decodeMembers T kvs) kv i f cur hb hf hc
      rw [hk] at hstep
      rcases store_string cur kv.2 with ⟨hnul, hs⟩ | ⟨s, hv, hs⟩ | ⟨hns, _, e, hs⟩
      · rw [hs] at hstep
        have hnull : ∀ s, kv.2 ≠ .str s := by
          intro s h; rw [hnul] at h; cases h
        apply keep _ (Or.inl hnull)
        rw [hstep]
        simp [List.getElem?_set_self hlt, hc]
      · rw [hs] at hstep
        left
        refine ⟨kv.1, s, List.mem_append.mpr (Or.inr ?_), hb, ?_⟩
        · rw [← hv]; simp
        · rw [hstep]; simp [List.getElem?_set_self hlt]
      · rw [hs] at hstep
        apply keep _ (Or.inl hns)
        rw [hstep]
    · exact keep (objectStep_frame T _ kv i hb) (Or.inr hb)

/-- When no two members are bound to the same field, a string field holds the string of the
member bound to it. -/
theorem decodeMembers_string_of_mem (T : StructType) (kvs : List (String × Json)) (i : Nat)
    (f : StructField) (hf : T.Fields[i]? = some f) (hk : f.Kind = .string)
    (hnd : (boundFields T kvs).Nodup) (k s : String) (hm : (k, Json.str s) ∈ kvs)
    (hb : findField T k = some i) :
    (decodeMembers T kvs).1[i]? = some (.string s) := by
  induction kvs using List.reverseRecOn with
  | nil => simp at hm
  | append_singleton kvs kv ih =>
    rw [decodeMembers_snoc]
    have hsplit : boundFields T (kvs ++ [kv]) =
        boundFields T kvs ++ boundFields T [kv] := by
      simp [boundFields]
    rw [hsplit] at hnd
    have hnd' := List.nodup_append.mp hnd
    rcases List.mem_append.mp hm with h | h
    · have hi : i ∈ boundFields T kvs := by
        simp only [boundFields, List.mem_filterMap]
        exact ⟨(k, .str s), h, hb⟩
      have hne : findField T kv.1 ≠ some i := by
        intro hkv
        have : i ∈ boundFields T [kv] := by simp [boundFields, hkv]
        exact hnd'.2.2 hi this
      rw [objectStep_frame T _ kv i hne]
      exact ih hnd'.1 h
    · simp at h; subst h
      obtain ⟨cur, hc⟩ := decodeMembers_current T kvs i f hf
      have hlt : i < (decodeMembers T kvs).1.length := (List.getElem?_eq_some.mp hc).1
      have hstep := objectStep_bound T (decodeMembers T kvs) (k, .str s) i f cur hb hf hc
      rw [hk] at hstep
      rw [hstep]
      simp [store, List.getElem?_set_self hlt]

theorem kind_string_field {T : StructType} {i : Nat}
    (hK : (T.Fields[i]?).map (fun f => f.Kind) = some GoKind.string) :
    ∃ f, T.Fields[i]? = some f ∧ f.Kind = .string := by
  cases h : T.Fields[i]? with
  | none => simp [h] at hK
  | some f => exact ⟨f, rfl, by simpa [h] using hK⟩

theorem lookup_encoded (fs : List StructField) (vals : List GoVal) (tag : String) (i : Nat)
    (hlen : vals.length = fs.length)
    (hi : fieldIndex (fun f => f.Tag == tag) fs = some i) :
    List.lookup tag (List.zipWith (fun f v => (f.Tag, v.encode)) fs vals) =
      (vals[i]?).map GoVal.encode := by
  induction fs generalizing vals i with
  | nil => simp [fieldIndex] at hi
  | cons f fs ih =>
    cases vals with
    | nil => simp at hlen
    | cons v vals =>
      unfold fieldIndex at hi
      by_cases hp : f.Tag = tag
      · simp [hp] at hi
        subst hi
        simp [List.lookup, hp]
      · simp [hp] at hi
        obtain ⟨j, hj, rfl⟩ := hi
        have hp' : (tag == f.Tag) = false := by
          simp; exact fun e => hp e.symm
        simp only [List.zipWith_cons_cons, List.lookup, hp']
        rw [ih vals j (by simpa using hlen) hj]
        simp

theorem fits_string_not_str {v : Json} (hfit : fits .string v = true) (hns : ∀ s, v ≠ .str s) :
    v = .null := by
  cases v <;> simp_all [fits]

/-- Decoding an object that matches the shape succeeds, and a string member bound by its own
name comes back under that name when the decoded struct is encoded. -/
theorem round_trip_field (T : StructType) (kvs : List (String × Json)) (tag : String) (i : Nat)
    (hsh : Shaped T kvs)
    (hi : fieldIndex (fun f => f.Tag == tag) T.Fields = some i)
    (hK : (T.Fields[i]?).map (fun f => f.Kind) = some GoKind.string) :
    ∃ vals, decodeStruct T (.obj kvs) = .ok vals ∧
      ∀ s, (tag, Json.str s) ∈ kvs → (encodeStruct T vals).get? tag = some (.str s) := by
  obtain ⟨f, hf, hk⟩ := kind_string_field hK
  have hok := (decodeMembers_ok_iff T kvs).mpr hsh.2
  refine ⟨(decodeMembers T kvs).1, by simp [decodeStruct, hok], fun s hm => ?_⟩
  simp only [encodeStruct, Json.get?, Json.members]
  rw [lookup_encoded _ _ _ _ (decodeMembers_length T kvs) hi,
    decodeMembers_string_of_mem T kvs i f hf hk hsh.1 tag s hm (findField_of_tag hi)]
  rfl

/-- A decoded string field is the string of a member bound to it, or empty when every member
bound to it is `null`; an object with a number bound to the field is rejected. -/
theorem string_field_exact (T : StructType) (i : Nat)
    (hK : (T.Fields[i]?).map (fun f => f.Kind) = some GoKind.string) :
    (∀ j vals, decodeStruct T j = .ok vals →
      (∃ k s, (k, Json.str s) ∈ j.members ∧ findField T k = some i ∧
        vals[i]? = some (.string s)) ∨
      (vals[i]? = some (.string "") ∧
        ∀ k v, (k, v) ∈ j.members → findField T k = some i → v = .null)) ∧
    (∀ kvs k lit, (k, Json.num lit) ∈ kvs → findField T k = some i →
      ∃ e, decodeStruct T (.obj kvs) = .error e) := by
  obtain ⟨f, hf, hk⟩ := kind_string_field hK
  constructor
  · intro j vals hd
    cases j with
    | obj kvs =>
      simp only [decodeStruct] at hd
      cases herr : (decodeMembers T kvs).2 with
      | some e => simp [herr] at hd
      | none =>
        simp [herr] at hd
        subst hd
        have hfit := (decodeMembers_ok_iff T kvs).mp herr
        rcases decodeMembers_string_origin T kvs i f hf hk with h | ⟨hv, hall⟩
        · exact Or.inl h
        · refine Or.inr ⟨hv, fun k v hm hb => ?_⟩
          have h1 := hfit (k, v) hm
          simp only [memberFits, hb, hf, hk] at h1
          exact fits_string_not_str h1 (hall (k, v) hm hb)
    | null =>
      simp [decodeStruct] at hd
      subst hd
      right
      refine ⟨by simp [hf, hk, GoKind.zero], by simp [Json.members]⟩
    | bool b => simp [decodeStruct] at hd
    | num lit => simp [decodeStruct] at hd
    | str s => simp [decodeStruct] at hd
    | arr xs => simp [decodeStruct] at hd
  · intro kvs k lit hm hb
    cases herr : (decodeMembers T kvs).2 with
    | some e => exact ⟨e, by simp [decodeStruct, herr]⟩
    | none =>
      have h1 := (decodeMembers_ok_iff T kvs).mp herr (k, .num lit) hm
      simp [memberFits, hb, hf, hk, fits] at h1

/-! ## The wrappers: requests and results -/

/-- C1: for every behaviour of the core and all strings `currency`, `typo`, `Accounts` hands
the core exactly one request; its method is GET, its path `/api/v1/accounts`, and its parameter
map holds `currency` (mapped to the argument) iff `currency` is non-empty, `type` (mapped to
`typo`) iff `typo` is non-empty, and no other key. `Accounts("BTC", "")` hands over exactly
the map with the single entry `currency = BTC`. -/
theorem Accounts_hands_one_request (Call : Request → σ → CallResult R E × σ) (s : σ)
    (currency typo : String) :
    (∃ p : StrMap,
      (Accounts (traced Call) currency typo (s, [])).2.2 =
        [{ Method := "GET", Path := "/api/v1/accounts", Params := some p }] ∧
      (∀ k, StrMap.index p k =
        if k = "currency" ∧ currency ≠ "" then some currency
        else if k = "type" ∧ typo ≠ "" then some typo else none) ∧
      (∀ k, k ∈ StrMap.keys p ↔ (k = "currency" ∧ currency ≠ "") ∨ (k = "type" ∧ typo ≠ "")) ∧
      (StrMap.keys p).Nodup) ∧
    (Accounts (traced Call) "BTC" "" (s, [])).2.2 =
      [{ Method := "GET", Path := "/api/v1/accounts", Params := some [("currency", "BTC")] }] := by
  refine ⟨?_, by simp [Accounts, traced, NewRequest, MethodGet, StrMap.assign, StrMap.empty]⟩
  by_cases hc : currency = "" <;> by_cases ht : typo = ""
  · subst hc; subst ht
    refine ⟨[], by simp [Accounts, traced, NewRequest, MethodGet, StrMap.empty], ?_, ?_, ?_⟩
    · intro k; simp [StrMap.index]
    · intro k; simp [StrMap.keys]
    · simp [StrMap.keys]
  · subst hc
    refine ⟨[("type", typo)],
      by simp [Accounts, traced, NewRequest, MethodGet, StrMap.empty, StrMap.assign, ht], ?_, ?_, ?_⟩
    · intro k
      by_cases h : k = "type"
      · subst h; simp [StrMap.index, ht]
      · have h' : ¬ "type" = k := fun e => h e.symm
        simp [StrMap.index, h, h']
    · intro k; simp [StrMap.keys, ht]
    · simp [StrMap.keys]
  · subst ht
    refine ⟨[("currency", currency)],
      by simp [Accounts, traced, NewRequest, MethodGet, StrMap.empty, StrMap.assign, hc], ?_, ?_, ?_⟩
    · intro k
      by_cases h : k = "currency"
      · subst h; simp [StrMap.index, hc]
      · have h' : ¬ "currency" = k := fun e => h e.symm
        simp [StrMap.index, h, h']
    · intro k; simp [StrMap.keys, hc]
    · simp [StrMap.keys]
  · refine ⟨[("currency", currency), ("type", typo)],
      by simp [Accounts, traced, NewRequest, MethodGet, StrMap.empty, StrMap.assign, hc, ht],
      ?_, ?_, ?_⟩
    · intro k
      by_cases h : k = "currency"
      · subst h; simp [StrMap.index, hc]
      · have h' : ¬ "currency" = k := fun e => h e.symm
        by_cases h2 : k = "type"
        · subst h2; simp [StrMap.index, ht]
        · have h2' : ¬ "type" = k := fun e => h2 e.symm
          simp [StrMap.index, h, h', h2, h2']
    · intro k; simp [StrMap.keys, hc, ht]
    · simp [StrMap.keys]

/-- C5: the POST wrappers `CreateAccount` and `InnerTransfer` invoke the core exactly once,
whatever the core answers (success, API error, transport error): run against a core that logs
its requests, each wrapper appends exactly one request, a POST, to the log, and returns the
result and the state of that single call. -/
theorem post_wrappers_call_core_once (Call : Request → σ → CallResult R E × σ) (s : σ)
    (log : List Request) (typo currency clientOid payAccountId recAccountId amount : String) :
    (∃ req : Request, req.Method = "POST" ∧
      CreateAccount (traced Call) typo currency (s, log) =
        ((Call req s).1, ((Call req s).2, log ++ [req])) ∧
      (CreateAccount (traced Call) typo currency (s, log)).2.2.length = log.length + 1) ∧
    (∃ req : Request, req.Method = "POST" ∧
      InnerTransfer (traced Call) clientOid payAccountId recAccountId amount (s, log) =
        ((Call req s).1, ((Call req s).2, log ++ [req])) ∧
      (InnerTransfer (traced Call) clientOid payAccountId recAccountId amount
        (s, log)).2.2.length = log.length + 1) := by
  refine ⟨⟨_, ?_, rfl, ?_⟩, ⟨_, ?_, rfl, ?_⟩⟩
  · rfl
  · simp [CreateAccount, traced]
  · rfl
  · simp [InnerTransfer, traced]

/-- C6: every wrapper of `account.go` returns exactly what `Call` returns for the one request
the wrapper built: for each of `Accounts`, `Account`, `CreateAccount`, `AccountHistories`,
`AccountHolds` and `InnerTransfer` there is a request, fixed by the arguments alone, such that
for every core and every state the wrapper's result (response, error and state) is the core's
result on that request. -/
theorem wrappers_return_call_result (ReadParam : PaginationParam → StrMap → StrMap)
    (currency typo accountId clientOid payAccountId recAccountId amount : String)
    (startAt endAt : Int) (pagination : PaginationParam) :
    (∃ req, ∀ (Call : Request → σ → CallResult R E × σ) (s : σ),
      Accounts Call currency typo s = Call req s) ∧
    (∃ req, ∀ (Call : Request → σ → CallResult R E × σ) (s : σ),
      Account Call accountId s = Call req s) ∧
    (∃ req, ∀ (Call : Request → σ → CallResult R E × σ) (s : σ),
      CreateAccount Call typo currency s = Call req s) ∧
    (∃ req, ∀ (Call : Request → σ → CallResult R E × σ) (s : σ),
      AccountHistories ReadParam Call accountId startAt endAt pagination s = Call req s) ∧
    (∃ req, ∀ (Call : Request → σ → CallResult R E × σ) (s : σ),
      AccountHolds ReadParam Call accountId pagination s = Call req s) ∧
    (∃ req, ∀ (Call : Request → σ → CallResult R E × σ) (s : σ),
      InnerTransfer Call clientOid payAccountId recAccountId amount s = Call req s) :=
  ⟨⟨_, fun _ _ => rfl⟩, ⟨_, fun _ _ => rfl⟩, ⟨_, fun _ _ => rfl⟩, ⟨_, fun _ _ => rfl⟩,
    ⟨_, fun _ _ => rfl⟩, ⟨_, fun _ _ => rfl⟩⟩

/-- C7, as stated, fails: the parameter set that `Account("1")` hands to `NewRequest` is not
the one `Accounts("", "")` hands over (the first is `nil`, the second an empty non-nil map). -/
theorem Account_params_differ_from_Accounts :
    (sentBy (fun call => Account call "1")).map Request.Params ≠
      (sentBy (fun call => Accounts call "" "")).map Request.Params := by
  decide

/-- C7, amended: for every `accountId`, `Account` hands `NewRequest` the `nil` parameter map
and `Accounts("", "")` an empty non-nil map; the two have the same entries, namely none, so
every key lookup misses in both and whatever is computed from the entries alone is the same
for both requests. -/
theorem Account_params_nil_Accounts_params_empty (accountId : String) :
    (sentBy (fun call => Account call accountId)).map Request.Params = [none] ∧
    (sentBy (fun call => Accounts call "" "")).map Request.Params = [some StrMap.empty] ∧
    (sentBy (fun call => Account call accountId)).map (fun r => entriesOf r.Params) = [[]] ∧
    (sentBy (fun call => Accounts call "" "")).map (fun r => entriesOf r.Params) = [[]] ∧
    (∀ k, (sentBy (fun call => Account call accountId)).map (fun r => indexOf r.Params k) =
        [none] ∧
      (sentBy (fun call => Accounts call "" "")).map (fun r => indexOf r.Params k) = [none]) ∧
    (∀ (β : Type) (canon : List (String × String) → β),
      (sentBy (fun call => Account call accountId)).map (fun r => canon (entriesOf r.Params)) =
      (sentBy (fun call => Accounts call "" "")).map (fun r => canon (entriesOf r.Params))) := by
  have hA : sentBy (fun call => Account call accountId) =
      [{ Method := "GET", Path := "/api/v1/accounts/" ++ accountId, Params := none }] := by
    simp [sentBy, Account, logOnly, NewRequest, MethodGet]
  have hB : sentBy (fun call => Accounts call "" "") =
      [{ Method := "GET", Path := "/api/v1/accounts", Params := some StrMap.empty }] := by
    simp [sentBy, Accounts, logOnly, NewRequest, MethodGet]
  rw [hA, hB]
  exact ⟨rfl, rfl, rfl, rfl, fun _ => ⟨rfl, rfl⟩, fun _ _ => rfl⟩

/-- C8: for all strings `clientOid`, `payAccountId`, `recAccountId` and `amount`,
`InnerTransfer` hands the core one POST request on `/api/v1/accounts/inner-transfer` whose
parameter map has exactly the keys `clientOid`, `payAccountId`, `recAccountId` and `amount`,
each mapped to the corresponding argument unchanged. -/
theorem InnerTransfer_request (clientOid payAccountId recAccountId amount : String) :
    ∃ p : StrMap,
      sentBy (fun call => InnerTransfer call clientOid payAccountId recAccountId amount) =
        [{ Method := "POST", Path := "/api/v1/accounts/inner-transfer", Params := some p }] ∧
      StrMap.index p "clientOid" = some clientOid ∧
      StrMap.index p "payAccountId" = some payAccountId ∧
      StrMap.index p "recAccountId" = some recAccountId ∧
      StrMap.index p "amount" = some amount ∧
      (∀ k, k ≠ "clientOid" → k ≠ "payAccountId" → k ≠ "recAccountId" → k ≠ "amount" →
        StrMap.index p k = none) ∧
      (StrMap.keys p).Perm ["clientOid", "payAccountId", "recAccountId", "amount"] := by
  refine ⟨[("clientOid", clientOid), ("payAccountId", payAccountId),
    ("recAccountId", recAccountId), ("amount", amount)], ?_, ?_, ?_, ?_, ?_, ?_, ?_⟩
  · simp [sentBy, InnerTransfer, logOnly, NewRequest, MethodPost, StrMap.assign, StrMap.empty]
  · simp [StrMap.index]
  · simp [StrMap.index]
  · simp [StrMap.index]
  · simp [StrMap.index]
  · intro k h1 h2 h3 h4
    have e1 : ¬ "clientOid" = k := fun e => h1 e.symm
    have e2 : ¬ "payAccountId" = k := fun e => h2 e.symm
    have e3 : ¬ "recAccountId" = k := fun e => h3 e.symm
    have e4 : ¬ "amount" = k := fun e => h4 e.symm
    simp [StrMap.index, e1, e2, e3, e4]
  · simp [StrMap.keys]

/-- C9: for every `accountId`, all integers `startAt`, `endAt` (so all 64-bit ones) and every
non-nil pagination, `AccountHistories` hands the core one GET request on
`/api/v1/accounts/<accountId>/ledgers` whose parameter map is `ReadParam` applied to a map that
depends on `startAt` and `endAt` only: it holds `startAt` (in decimal) iff `startAt > 0`,
`endAt` (in decimal) iff `endAt > 0`, and nothing else. When `ReadParam` leaves the two keys
alone, the request carries them as that map does, whatever the pagination. With both bounds
`0` the map handed to `ReadParam` is empty. -/
theorem AccountHistories_request (ReadParam : PaginationParam → StrMap → StrMap)
    (accountId : String) (startAt endAt : Int) :
    (∃ base : StrMap,
      (∀ pagination : PaginationParam,
        sentBy (fun call => AccountHistories ReadParam call accountId startAt endAt pagination) =
          [{ Method := "GET", Path := "/api/v1/accounts/" ++ accountId ++ "/ledgers",
             Params := some (ReadParam pagination base) }]) ∧
      (∀ k, StrMap.index base k =
        if k = "startAt" ∧ startAt > 0 then some (IntToString startAt)
        else if k = "endAt" ∧ endAt > 0 then some (IntToString endAt) else none) ∧
      (∀ k, k ∈ StrMap.keys base ↔ (k = "startAt" ∧ startAt > 0) ∨ (k = "endAt" ∧ endAt > 0)) ∧
      (StrMap.keys base).Nodup ∧
      ((∀ pg m k, (k = "startAt" ∨ k = "endAt") →
          StrMap.index (ReadParam pg m) k = StrMap.index m k) →
        ∀ pagination k, (k = "startAt" ∨ k = "endAt") →
          StrMap.index (ReadParam pagination base) k = StrMap.index base k)) ∧
    (∀ pagination : PaginationParam,
      sentBy (fun call => AccountHistories ReadParam call accountId 0 0 pagination) =
        [{ Method := "GET", Path := "/api/v1/accounts/" ++ accountId ++ "/ledgers",
           Params := some (ReadParam pagination StrMap.empty) }]) := by
  refine ⟨?_, fun pg => by simp [sentBy, AccountHistories, logOnly, NewRequest, MethodGet]⟩
  by_cases hs : startAt > 0 <;> by_cases he : endAt > 0
  · refine ⟨[("startAt", IntToString startAt), ("endAt", IntToString endAt)], fun pg => by
      simp [sentBy, AccountHistories, logOnly, NewRequest, MethodGet, StrMap.empty,
        StrMap.assign, hs, he], ?_, ?_, ?_, fun hkeep pg k hk => hkeep pg _ k hk⟩
    · intro k
      by_cases h : k = "startAt"
      · subst h; simp [StrMap.index, hs]
      · have h' : ¬ "startAt" = k := fun e => h e.symm
        by_cases h2 : k = "endAt"
        · subst h2; simp [StrMap.index, he]
        · have h2' : ¬ "endAt" = k := fun e => h2 e.symm
          simp [StrMap.index, h, h', h2, h2']
    · intro k; simp [StrMap.keys, hs, he]
    · simp [StrMap.keys]
  · refine ⟨[("startAt", IntToString startAt)], fun pg => by
      simp [sentBy, AccountHistories, logOnly, NewRequest, MethodGet, StrMap.empty,
        StrMap.assign, hs, he], ?_, ?_, ?_, fun hkeep pg k hk => hkeep pg _ k hk⟩
    · intro k
      by_cases h : k = "startAt"
      · subst h; simp [StrMap.index, hs]
      · have h' : ¬ "startAt" = k := fun e => h e.symm
        simp [StrMap.index, h, h', he]
    · intro k; simp [StrMap.keys, hs, he]
    · simp [StrMap.keys]
  · refine ⟨[("endAt", IntToString endAt)], fun pg => by
      simp [sentBy, AccountHistories, logOnly, NewRequest, MethodGet, StrMap.empty,
        StrMap.assign, hs, he], ?_, ?_, ?_, fun hkeep pg k hk => hkeep pg _ k hk⟩
    · intro k
      by_cases h : k = "endAt"
      · subst h; simp [StrMap.index, he]
      · have h' : ¬ "endAt" = k := fun e => h e.symm
        simp [StrMap.index, h, h', hs]
    · intro k; simp [StrMap.keys, hs, he]
    · simp [StrMap.keys]
  · refine ⟨[], fun pg => by
      simp [sentBy, AccountHistories, logOnly, NewRequest, MethodGet, StrMap.empty, hs, he],
      ?_, ?_, ?_, fun hkeep pg k hk => hkeep pg _ k hk⟩
    · intro k; simp [StrMap.index, hs, he]
    · intro k; simp [StrMap.keys, hs, he]
    · simp [StrMap.keys]

/-- C9 at the account `1` with `startAt = 1545904567062`, no `endAt`, page 1 of size 10, for a
`ReadParam` that writes the page number and the page size. -/
theorem AccountHistories_request_witness :
    sentBy (fun call => AccountHistories pageParams call "1" 1545904567062 0 ⟨1, 10⟩) =
      [{ Method := "GET", Path := "/api/v1/accounts/1/ledgers",
         Params := some [("startAt", "1545904567062"), ("currentPage", "1"),
           ("pageSize", "10")] }] ∧
    ∃ base : StrMap,
      StrMap.index base "startAt" = some "1545904567062" ∧
      StrMap.index base "endAt" = none ∧
      StrMap.index (pageParams ⟨1, 10⟩ base) "startAt" =
        StrMap.index (pageParams ⟨2, 50⟩ base) "startAt" := by
  refine ⟨by decide, ?_⟩
  obtain ⟨⟨base, _, hidx, _, _, hk⟩, _⟩ := AccountHistories_request pageParams "1" 1545904567062 0
  refine ⟨base, ?_, ?_, ?_⟩
  · rw [hidx]; decide
  · rw [hidx]; decide
  · rw [hk pageParams_keeps ⟨1, 10⟩ "startAt" (Or.inl rfl),
      hk pageParams_keeps ⟨2, 50⟩ "startAt" (Or.inl rfl)]

theorem ledgers_ne_holds (x y : String) : x ++ "/ledgers" ≠ y ++ "/holds" := by
  intro h
  have h' := congrArg (fun s => s.data.reverse) h
  have e1 : ("/ledgers" : String).data = ['/', 'l', 'e', 'd', 'g', 'e', 'r', 's'] := rfl
  have e2 : ("/holds" : String).data = ['/', 'h', 'o', 'l', 'd', 's'] := rfl
  simp [String.data_append_eq, e1, e2] at h'

theorem slash_mem_of_eq_append {a b : String} (q : String) (hq : '/' ∈ q.data)
    (h : a = b ++ q) : '/' ∈ a.data := by
  subst h
  simp [String.data_append_eq, hq]

/-- C10: the account id is spliced into the path verbatim; for ids `a`, `b`, `c` without a
`/` the paths of `Account(a)`, `AccountHistories(b, ..)` and `AccountHolds(c, ..)` are pairwise
distinct; each of the three paths determines the account id; and without the no-slash
condition the separation fails: `Account("x/holds")` builds the path of `AccountHolds("x")`. -/
theorem account_paths_separate (ReadParam : PaginationParam → StrMap → StrMap)
    (a b c : String) (startAt endAt : Int) (pagination : PaginationParam)
    (ha : '/' ∉ a.data) :
    ((sentBy (fun call => Account call a)).map Request.Path = ["/api/v1/accounts/" ++ a] ∧
     (sentBy (fun call => AccountHistories ReadParam call b startAt endAt pagination)).map
        Request.Path = ["/api/v1/accounts/" ++ b ++ "/ledgers"] ∧
     (sentBy (fun call => AccountHolds ReadParam call c pagination)).map Request.Path =
        ["/api/v1/accounts/" ++ c ++ "/holds"]) ∧
    ((sentBy (fun call => Account call a)).map Request.Path ≠
      (sentBy (fun call => AccountHistories ReadParam call b startAt endAt pagination)).map
        Request.Path ∧
     (sentBy (fun call => Account call a)).map Request.Path ≠
      (sentBy (fun call => AccountHolds ReadParam call c pagination)).map Request.Path ∧
     (sentBy (fun call => AccountHistories ReadParam call b startAt endAt pagination)).map
        Request.Path ≠
      (sentBy (fun call => AccountHolds ReadParam call c pagination)).map Request.Path) ∧
    ((∀ a' : String, (sentBy (fun call => Account call a)).map Request.Path =
        (sentBy (fun call => Account call a')).map Request.Path → a = a') ∧
     (∀ b' : String,
        (sentBy (fun call => AccountHistories ReadParam call b startAt endAt pagination)).map
          Request.Path =
        (sentBy (fun call => AccountHistories ReadParam call b' startAt endAt pagination)).map
          Request.Path → b = b') ∧
     (∀ c' : String, (sentBy (fun call => AccountHolds ReadParam call c pagination)).map
          Request.Path =
        (sentBy (fun call => AccountHolds ReadParam call c' pagination)).map Request.Path →
        c = c')) ∧
    (sentBy (fun call => Account call "x/holds")).map Request.Path =
      (sentBy (fun call => AccountHolds ReadParam call "x" pagination)).map Request.Path := by
  have pA : ∀ x : String, (sentBy (fun call => Account call x)).map Request.Path =
      ["/api/v1/accounts/" ++ x] := fun x => by
    simp [sentBy, Account, logOnly, NewRequest]
  have pH : ∀ x : String,
      (sentBy (fun call => AccountHistories ReadParam call x startAt endAt pagination)).map
        Request.Path = ["/api/v1/accounts/" ++ x ++ "/ledgers"] := fun x => by
    simp [sentBy, AccountHistories, logOnly, NewRequest]
  have pO : ∀ x : String,
      (sentBy (fun call => AccountHolds ReadParam call x pagination)).map Request.Path =
        ["/api/v1/accounts/" ++ x ++ "/holds"] := fun x => by
    simp [sentBy, AccountHolds, logOnly, NewRequest]
  have assoc : ∀ x y z : String, x ++ y ++ z = x ++ (y ++ z) := fun x y z => by
    apply String.eq_of_data_eq; simp [String.data_append_eq]
  refine ⟨⟨pA a, pH b, pO c⟩, ⟨?_, ?_, ?_⟩, ⟨?_, ?_, ?_⟩, ?_⟩
  · rw [pA, pH]
    intro h
    have h1 := List.head_eq_of_cons_eq h
    rw [assoc] at h1
    exact ha (slash_mem_of_eq_append "/ledgers" (by decide) (String.append_left_cancel h1))
  · rw [pA, pO]
    intro h
    have h1 := List.head_eq_of_cons_eq h
    rw [assoc] at h1
    exact ha (slash_mem_of_eq_append "/holds" (by decide) (String.append_left_cancel h1))
  · rw [pH, pO]
    intro h
    exact ledgers_ne_holds _ _ (List.head_eq_of_cons_eq h)
  · intro a' h
    rw [pA, pA] at h
    exact String.append_left_cancel (List.head_eq_of_cons_eq h)
  · intro b' h
    rw [pH, pH] at h
    exact String.append_left_cancel (String.append_right_cancel (List.head_eq_of_cons_eq h))
  · intro c' h
    rw [pO, pO] at h
    exact String.append_left_cancel (String.append_right_cancel (List.head_eq_of_cons_eq h))
  · rw [pA, pO]; decide

/-- C10 at the ids `1`, `2` and `3`. -/
theorem account_paths_separate_witness :
    (sentBy (fun call => Account call "1")).map Request.Path ≠
      (sentBy (fun call => AccountHistories pageParams call "2" 0 0 ⟨1, 10⟩)).map
        Request.Path ∧
    (sentBy (fun call => AccountHolds pageParams call "3" ⟨1, 10⟩)).map Request.Path =
      ["/api/v1/accounts/3/holds"] :=
  ⟨(account_paths_separate pageParams "1" "2" "3" 0 0 ⟨1, 10⟩
      (by decide)).2.1.1,
   (account_paths_separate pageParams "1" "2" "3" 0 0 ⟨1, 10⟩
      (by decide)).1.2.2⟩

/-! ## The models: decoding and encoding -/

theorem decodeMembers_string_of_all (T : StructType) (kvs : List (String × Json)) (i : Nat)
    (f : StructField) (hf : T.Fields[i]? = some f) (hk : f.Kind = .string)
    (k s : String) (hm : (k, Json.str s) ∈ kvs) (hb : findField T k = some i)
    (hall : ∀ kv ∈ kvs, findField T kv.1 = some i → kv.2 = .str s) :
    (decodeMembers T kvs).1[i]? = some (.string s) := by
  rcases decodeMembers_string_origin T kvs i f hf hk with ⟨k', s', hm', hb', hv⟩ | ⟨_, hno⟩
  · have := hall (k', .str s') hm' hb'
    simp at this
    rw [hv, this]
  · exact absurd rfl (hno (k, .str s) hm hb s)

theorem AccountModel_member_value (a : AccountModel) (kv : String × Json)
    (hkv : kv ∈ a.members) (i : Nat) (hb : findField AccountModel.type kv.1 = some i) :
    (a.vals[i]?).map GoVal.encode = some kv.2 := by
  simp only [AccountModel.members, List.mem_cons, List.mem_singleton, List.not_mem_nil,
    or_false] at hkv
  rcases hkv with rfl | rfl | rfl | rfl | rfl | rfl
  · have h : findField AccountModel.type "id" = some 0 := by decide
    cases hb.symm.trans h; rfl
  · have h : findField AccountModel.type "currency" = some 1 := by decide
    cases hb.symm.trans h; rfl
  · have h : findField AccountModel.type "type" = some 2 := by decide
    cases hb.symm.trans h; rfl
  · have h : findField AccountModel.type "balance" = some 3 := by decide
    cases hb.symm.trans h; rfl
  · have h : findField AccountModel.type "available" = some 4 := by decide
    cases hb.symm.trans h; rfl
  · have h : findField AccountModel.type "holds" = some 5 := by decide
    cases hb.symm.trans h; rfl

theorem AccountModel_field_member (a : AccountModel) (i : Nat) (hi : i < 6) :
    ∃ k s, (k, Json.str s) ∈ a.members ∧ findField AccountModel.type k = some i ∧
      a.vals[i]? = some (.string s) ∧
      (AccountModel.type.Fields[i]?).map (fun f => f.Kind) = some GoKind.string := by
  match i, hi with
  | 0, _ => exact ⟨"id", a.Id, by simp [AccountModel.members], by decide, rfl, by decide⟩
  | 1, _ => exact ⟨"currency", a.Currency, by simp [AccountModel.members], by decide, rfl,
      by decide⟩
  | 2, _ => exact ⟨"type", a.Typ, by simp [AccountModel.members], by decide, rfl, by decide⟩
  | 3, _ => exact ⟨"balance", a.Balance, by simp [AccountModel.members], by decide, rfl,
      by decide⟩
  | 4, _ => exact ⟨"available", a.Available, by simp [AccountModel.members], by decide, rfl,
      by decide⟩
  | 5, _ => exact ⟨"holds", a.Holds, by simp [AccountModel.members], by decide, rfl, by decide⟩

/-- An object that has the six string members of an account, and whose other members are
bound to no field, decodes to that account. -/
theorem AccountModel_decode_members (a : AccountModel) (kvs : List (String × Json))
    (hsub : ∀ m ∈ a.members, m ∈ kvs)
    (hrest : ∀ kv ∈ kvs, kv ∈ a.members ∨ findField AccountModel.type kv.1 = none) :
    decodeStruct AccountModel.type (.obj kvs) = .ok a.vals := by
  have hfit : ∀ kv ∈ kvs, memberFits AccountModel.type kv = true := by
    intro kv hkv
    rcases hrest kv hkv with hm | hn
    · simp only [AccountModel.members, List.mem_cons, List.mem_singleton, List.not_mem_nil,
        or_false] at hm
      rcases hm with rfl | rfl | rfl | rfl | rfl | rfl <;> rfl
    · simp [memberFits, hn]
  have hok := (decodeMembers_ok_iff AccountModel.type kvs).mpr hfit
  have hlen := decodeMembers_length AccountModel.type kvs
  simp only [decodeStruct, hok]
  congr 1
  apply List.ext_getElem?
  intro i
  by_cases hi : i < 6
  · obtain ⟨k, s, hm, hb, hv, hK⟩ := AccountModel_field_member a i hi
    obtain ⟨f, hf, hk⟩ := kind_string_field hK
    rw [hv]
    apply decodeMembers_string_of_all _ kvs i f hf hk k s (hsub _ hm) hb
    intro kv hkv hbkv
    rcases hrest kv hkv with hm' | hn
    · have := AccountModel_member_value a kv hm' i hbkv
      rw [hv] at this
      simpa [GoVal.encode] using this.symm
    · rw [hn] at hbkv; cases hbkv
  · have h1 : (decodeMembers AccountModel.type kvs).1[i]? = none := by
      apply List.getElem?_eq_none
      rw [hlen]; simp [AccountModel.type]; omega
    have h2 : a.vals[i]? = none := by
      apply List.getElem?_eq_none
      simp [AccountModel.vals]; omega
    rw [h1, h2]

/-- C2, as stated, fails: an object may have the six members `id`, `currency`, `type`,
`balance`, `available` and `holds` as JSON strings and still not decode to them, because a
member name is bound to a field up to case. With the further member `Balance` a number,
decoding into `AccountsModel` is an error; with the further member `BALANCE` the string `7`,
decoding succeeds and the record's balance is `7`, not the `10.5` of the member `balance`. -/
theorem AccountsModel_case_variant_member :
    ((∀ m ∈ AccountModel.members
        { Id := "1", Currency := "BTC", Typ := "trade", Balance := "10.5",
          Available := "10.0", Holds := "0.5" },
        m ∈ [("id", Json.str "1"), ("currency", .str "BTC"), ("type", .str "trade"),
          ("balance", .str "10.5"), ("available", .str "10.0"), ("holds", .str "0.5"),
          ("Balance", .num "7")]) ∧
      decodeSlice AccountsModel.type
        (.arr [.obj [("id", .str "1"), ("currency", .str "BTC"), ("type", .str "trade"),
          ("balance", .str "10.5"), ("available", .str "10.0"), ("holds", .str "0.5"),
          ("Balance", .num "7")]]) =
        .error { Value := "number", GoType := "string" }) ∧
    ((∀ m ∈ AccountModel.members
        { Id := "1", Currency := "BTC", Typ := "trade", Balance := "10.5",
          Available := "10.0", Holds := "0.5" },
        m ∈ [("id", Json.str "1"), ("currency", .str "BTC"), ("type", .str "trade"),
          ("balance", .str "10.5"), ("available", .str "10.0"), ("holds", .str "0.5"),
          ("BALANCE", .str "7")]) ∧
      decodeSlice AccountsModel.type
        (.arr [.obj [("id", .str "1"), ("currency", .str "BTC"), ("type", .str "trade"),
          ("balance", .str "10.5"), ("available", .str "10.0"), ("holds", .str "0.5"),
          ("BALANCE", .str "7")]]) =
        .ok [some (AccountModel.vals
          { Id := "1", Currency := "BTC", Typ := "trade", Balance := "7",
            Available := "10.0", Holds := "0.5" })] ∧
      decodeSlice AccountsModel.type
        (.arr [.obj [("id", .str "1"), ("currency", .str "BTC"), ("type", .str "trade"),
          ("balance", .str "10.5"), ("available", .str "10.0"), ("holds", .str "0.5"),
          ("BALANCE", .str "7")]]) ≠
        .ok [some (AccountModel.vals
          { Id := "1", Currency := "BTC", Typ := "trade", Balance := "10.5",
            Available := "10.0", Holds := "0.5" })]) := by
  refine ⟨⟨?_, rfl⟩, ?_, rfl, ?_⟩
  · intro m hm
    simp only [AccountModel.members, List.mem_cons, List.mem_singleton, List.not_mem_nil,
      or_false] at hm
    rcases hm with rfl | rfl | rfl | rfl | rfl | rfl <;> simp
  · intro m hm
    simp only [AccountModel.members, List.mem_cons, List.mem_singleton, List.not_mem_nil,
      or_false] at hm
    rcases hm with rfl | rfl | rfl | rfl | rfl | rfl <;> simp
  · have h : decodeSlice AccountsModel.type
        (.arr [.obj [("id", .str "1"), ("currency", .str "BTC"), ("type", .str "trade"),
          ("balance", .str "10.5"), ("available", .str "10.0"), ("holds", .str "0.5"),
          ("BALANCE", .str "7")]]) =
        .ok [some (AccountModel.vals
          { Id := "1", Currency := "BTC", Typ := "trade", Balance := "7",
            Available := "10.0", Holds := "0.5" })] := rfl
    rw [h]
    simp [AccountModel.vals]

/-- C2, amended: for every JSON array of n objects that have the members `id`, `currency`,
`type`, `balance`, `available` and `holds`, each a JSON string, in any order, and whose other
members, if any, are bound to no field (their names differ from the six also up to case),
decoding the array into `AccountsModel` succeeds and yields n records in the order of the
array, every field of a record being the string of the member of its name. -/
theorem AccountsModel_decodes_in_order (accounts : List AccountModel)
    (objs : List (List (String × Json)))
    (h : List.Forall₂ (fun a kvs =>
      (∀ m ∈ AccountModel.members a, m ∈ kvs) ∧
      (∀ kv ∈ kvs, kv ∈ AccountModel.members a ∨ findField AccountModel.type kv.1 = none))
      accounts objs) :
    decodeSlice AccountsModel.type (.arr (objs.map Json.obj)) =
      .ok (accounts.map fun a => some a.vals) ∧
    (accounts.map fun a => some a.vals).length = objs.length := by
  refine ⟨?_, by simpa using h.length_eq⟩
  simp only [decodeSlice, AccountsModel.type]
  induction h with
  | nil => rfl
  | cons hab _ ih =>
    simp only [List.map_cons, decodeElems, decodeElem,
      AccountModel_decode_members _ _ hab.1 hab.2, ih]

/-- C2, amended, at the sample of the spec: one record, with balance `10.5`, available `10.0`
and holds `0.5`. -/
theorem AccountsModel_decodes_sample :
    decodeSlice AccountsModel.type
      (.arr [.obj [("id", .str "1"), ("currency", .str "BTC"), ("type", .str "trade"),
        ("balance", .str "10.5"), ("available", .str "10.0"), ("holds", .str "0.5")]]) =
      .ok [some (AccountModel.vals
        { Id := "1", Currency := "BTC", Typ := "trade", Balance := "10.5",
          Available := "10.0", Holds := "0.5" })] :=
  (AccountsModel_decodes_in_order
    [{ Id := "1", Currency := "BTC", Typ := "trade", Balance := "10.5",
       Available := "10.0", Holds := "0.5" }]
    [[("id", .str "1"), ("currency", .str "BTC"), ("type", .str "trade"),
      ("balance", .str "10.5"), ("available", .str "10.0"), ("holds", .str "0.5")]]
    (List.Forall₂.cons ⟨fun _ hm => hm, fun _ hkv => Or.inl hkv⟩ List.Forall₂.nil)).1

/-- C3: for each balance, amount or fee field of `AccountModel`, `AccountHistoryModel` and
`AccountHoldModel`, and every JSON object that matches the shape of the model, decoding
succeeds, and when the object has that member as a JSON string, encoding the decoded value
gives a member of the same name that is the same JSON string. -/
theorem decimal_fields_round_trip (p : StructType × String) (hp : p ∈ decimalFields)
    (kvs : List (String × Json)) (hsh : Shaped p.1 kvs) :
    ∃ vals, decodeStruct p.1 (.obj kvs) = .ok vals ∧
      ∀ s, (p.2, Json.str s) ∈ kvs → (encodeStruct p.1 vals).get? p.2 = some (.str s) := by
  simp only [decimalFields, List.mem_cons, List.mem_singleton, List.not_mem_nil, or_false] at hp
  rcases hp with rfl | rfl | rfl | rfl | rfl | rfl | rfl
  · exact round_trip_field _ kvs _ 3 hsh (by decide) (by decide)
  · exact round_trip_field _ kvs _ 4 hsh (by decide) (by decide)
  · exact round_trip_field _ kvs _ 5 hsh (by decide) (by decide)
  · exact round_trip_field _ kvs _ 1 hsh (by decide) (by decide)
  · exact round_trip_field _ kvs _ 2 hsh (by decide) (by decide)
  · exact round_trip_field _ kvs _ 3 hsh (by decide) (by decide)
  · exact round_trip_field _ kvs _ 1 hsh (by decide) (by decide)

/-- C3 at a ledger entry whose amount is `0.00000001`: the amount comes back as the string
`0.00000001`. -/
theorem decimal_fields_round_trip_witness :
    (AccountHistoryModel.type, "amount") ∈ decimalFields ∧
    Shaped AccountHistoryModel.type
      [("currency", .str "BTC"), ("amount", .str "0.00000001"), ("createdAt", .num "1545904567062"),
       ("context", .obj [("orderId", .str "5c24")])] ∧
    ∃ vals, decodeStruct AccountHistoryModel.type
        (.obj [("currency", .str "BTC"), ("amount", .str "0.00000001"),
          ("createdAt", .num "1545904567062"), ("context", .obj [("orderId", .str "5c24")])]) =
          .ok vals ∧
      (encodeStruct AccountHistoryModel.type vals).get? "amount" = some (.str "0.00000001") :=
  have hp : (AccountHistoryModel.type, "amount") ∈ decimalFields := by simp [decimalFields]
  have hsh : Shaped AccountHistoryModel.type
      [("currency", .str "BTC"), ("amount", .str "0.00000001"), ("createdAt", .num "1545904567062"),
       ("context", .obj [("orderId", .str "5c24")])] := ⟨by decide, by decide⟩
  ⟨hp, hsh, (decimal_fields_round_trip _ hp _ hsh).imp
    fun _ h => ⟨h.1, h.2 "0.00000001" (by simp)⟩⟩

/-- C4: every balance, amount and fee field of the three models is decoded as an exact
string. With `i` the field of that name: if decoding any JSON value succeeds, the field is the
string of a member bound to it, or it is empty and every member bound to it is `null` (none
when the member is absent); and an object in which a member bound to the field is a JSON
number is rejected with an error. -/
theorem decimal_fields_decoded_exactly (p : StructType × String) (hp : p ∈ decimalFields) :
    ∃ i, fieldIndex (fun f => f.Tag == p.2) p.1.Fields = some i ∧
      (∀ j vals, decodeStruct p.1 j = .ok vals →
        (∃ k s, (k, Json.str s) ∈ j.members ∧ findField p.1 k = some i ∧
          vals[i]? = some (.string s)) ∨
        (vals[i]? = some (.string "") ∧
          ∀ k v, (k, v) ∈ j.members → findField p.1 k = some i → v = .null)) ∧
      (∀ kvs k lit, (k, Json.num lit) ∈ kvs → findField p.1 k = some i →
        ∃ e, decodeStruct p.1 (.obj kvs) = .error e) := by
  simp only [decimalFields, List.mem_cons, List.mem_singleton, List.not_mem_nil, or_false] at hp
  rcases hp with rfl | rfl | rfl | rfl | rfl | rfl | rfl
  · exact ⟨3, by decide, string_field_exact _ 3 (by decide)⟩
  · exact ⟨4, by decide, string_field_exact _ 4 (by decide)⟩
  · exact ⟨5, by decide, string_field_exact _ 5 (by decide)⟩
  · exact ⟨1, by decide, string_field_exact _ 1 (by decide)⟩
  · exact ⟨2, by decide, string_field_exact _ 2 (by decide)⟩
  · exact ⟨3, by decide, string_field_exact _ 3 (by decide)⟩
  · exact ⟨1, by decide, string_field_exact _ 1 (by decide)⟩

/-- C4 at the balance of an account: an object whose `balance` is the number `1e-8` is
rejected. -/
theorem decimal_fields_decoded_exactly_witness :
    (AccountModel.type, "balance") ∈ decimalFields ∧
    ∃ e, decodeStruct AccountModel.type
      (.obj [("id", .str "1"), ("balance", .num "1e-8")]) = .error e :=
  have hp : (AccountModel.type, "balance") ∈ decimalFields := by simp [decimalFields]
  ⟨hp, by
    obtain ⟨i, hi, _, hB⟩ := decimal_fields_decoded_exactly _ hp
    have h3 : fieldIndex (fun f => f.Tag == "balance") AccountModel.type.Fields = some 3 := by
      decide
    have hi3 : i = 3 := Option.some.inj (hi.symm.trans h3)
    subst hi3
    exact hB _ "balance" "1e-8" (by simp) (by decide)⟩

end Kucoin
